import Mathlib

/-!
Shallow embedding of the VastAI-Automation scripts (launch_gpu.py,
utils.py, connect_mosh.py).  External subprocesses (the vastai CLI, ssh,
mosh) are modelled as oracles supplied through environment records; the
Python control flow is translated function by function.  Python string
operations used by the code (str(), .lower(), .strip(), .split(" "),
the `in` substring test) are given explicit executable models.
-/

namespace VastAI

/-! ## Python string primitives -/

/-- Python `s.lower()` restricted to per-character lowering (ASCII exact,
which covers every input the scripts compare against). -/
def pyLower (s : String) : String :=
  String.mk (s.data.map Char.toLower)

/-- Python `s.strip()` with no argument: drop leading and trailing
whitespace (ASCII whitespace, which covers every output the scripts
strip).  Written with structural recursion so that concrete values
compute inside proofs. -/
def pyStrip (s : String) : String :=
  String.mk (((s.data.dropWhile Char.isWhitespace).reverse.dropWhile
    Char.isWhitespace).reverse)

/-- Python truthiness of an optional string: `None` and the empty string
are falsy, every other string is truthy. -/
def pyTruthy : Option String → Bool
  | none => false
  | some s => !(s == "")

/-- Whether the pattern list is an initial segment of the other list
(model of Python str.startswith, used to build the substring test). -/
def isLeadOf : List Char → List Char → Bool
  | [], _ => true
  | _ :: _, [] => false
  | a :: as, b :: bs => a == b && isLeadOf as bs

/-- Whether the pattern occurs contiguously somewhere in the other list. -/
def hasSubstr (pat : List Char) : List Char → Bool
  | [] => isLeadOf pat []
  | c :: rest => isLeadOf pat (c :: rest) || hasSubstr pat rest

/-- Python `needle in hay` on strings: contiguous substring test. -/
def pyIn (needle hay : String) : Bool :=
  hasSubstr needle.data hay.data

/-! ## utils.cleanup_instance

    `cleanup_instance(instance_id)` destroys the instance when the id is
    truthy and not the sentinel string null; the destroy subprocess is run
    without exit checking, so the function never raises: it is modelled as
    a total function.  The oracle `DestroyEnv` carries the exit code and
    stderr text the `vastai destroy instance` subprocess would produce. -/

/-- Outcome of one `vastai destroy instance` subprocess. -/
structure DestroyEnv where
  destroyExit : Int
  destroyStderr : String
deriving Repr, DecidableEq

/-- The four console reports cleanup_instance can print, one per branch of
the Python function. -/
inductive CleanupReport where
  /-- destroy exited 0: Instance terminated. -/
  | terminated
  /-- destroy failed but stderr mentions not found: reported as success. -/
  | alreadyDestroyed
  /-- destroy failed for another reason: warning only. -/
  | warnFailed
  /-- falsy or sentinel id: Script failed before instance creation. -/
  | skippedNoInstance
deriving Repr, DecidableEq

/-- utils.cleanup_instance.  First component of the result: the list of
instance ids a destroy subprocess was issued for (at most one).  The
input is `Option String` because Python callers may pass `None`. -/
def cleanup_instance (instance_id : Option String) (env : DestroyEnv) :
    List String × CleanupReport :=
  if pyTruthy instance_id && !(instance_id == some "null") then
    let id := instance_id.getD ""
    if env.destroyExit = 0 then ([id], .terminated)
    else if pyIn "not found" env.destroyStderr then ([id], .alreadyDestroyed)
    else ([id], .warnFailed)
  else ([], .skippedNoInstance)

/-- C7: cleanup called with an absent identifier (Python None), an empty
identifier, or the sentinel string null issues zero destroy requests and
returns without error (the guard takes the else branch, which only
prints; the remote-instance state is untouched). -/
theorem cleanup_instance_noop_on_absent_or_sentinel : ∀ env : DestroyEnv,
    cleanup_instance none env = ([], .skippedNoInstance) ∧
    cleanup_instance (some "") env = ([], .skippedNoInstance) ∧
    cleanup_instance (some "null") env = ([], .skippedNoInstance) := by
  intro env
  refine ⟨rfl, rfl, ?_⟩
  simp [cleanup_instance, pyTruthy]

/-- C8: cleanup called with a valid (truthy, non-sentinel) identifier
always issues exactly one destroy request for it and, being modelled as a
total function (the destroy subprocess is run without exit checking, so
the Python function cannot raise), always returns: exit 0 reports
success; a non-zero exit whose stderr contains the text not found is
reported as success (already destroyed); any other non-zero exit is
reported as a warning only. -/
theorem cleanup_instance_valid_id (id : String) (env : DestroyEnv)
    (hne : id ≠ "") (hns : id ≠ "null") :
    (cleanup_instance (some id) env).1 = [id] ∧
    (env.destroyExit = 0 →
      (cleanup_instance (some id) env).2 = .terminated) ∧
    (env.destroyExit ≠ 0 → pyIn "not found" env.destroyStderr = true →
      (cleanup_instance (some id) env).2 = .alreadyDestroyed) ∧
    (env.destroyExit ≠ 0 → pyIn "not found" env.destroyStderr = false →
      (cleanup_instance (some id) env).2 = .warnFailed) := by
  have h1 : (pyTruthy (some id) && !(some id == some "null")) = true := by
    simp [pyTruthy, hne, hns]
  refine ⟨?_, ?_, ?_, ?_⟩ <;>
    simp only [cleanup_instance, h1, if_true] <;>
    intros <;>
    split_ifs <;> simp_all

/-- C8 witness: a destroy exiting 1 with stderr mentioning not found, on
id 789, issues the one destroy call and reports already-destroyed
success. -/
theorem cleanup_instance_valid_id_witness :
    (cleanup_instance (some "789") ⟨1, "Error: instance not found"⟩).1 = ["789"] ∧
    (cleanup_instance (some "789") ⟨1, "Error: instance not found"⟩).2 =
      .alreadyDestroyed := by
  have h := cleanup_instance_valid_id "789" ⟨1, "Error: instance not found"⟩
    (by decide) (by decide)
  exact ⟨h.1, h.2.2.1 (by decide) (by decide)⟩

/-! ## launch_gpu: instance id extraction from the create response

    `instance_id = str(create_data.get("new_contract"))` followed by
    `if not instance_id or instance_id == "null": raise`. -/

/-- The JSON field `new_contract` of the create response as Python's
`dict.get` delivers it: `missing` covers both an absent key and an
explicit JSON null (both give Python None). -/
inductive CreateField where
  | missing
  | str (s : String)
  | num (n : Int)
deriving Repr, DecidableEq

/-- Python `str()` applied to the value `dict.get` returned:
`str(None)` is the four-letter string None. -/
def pyStrOfField : CreateField → String
  | .missing => "None"
  | .str s => s
  | .num n => toString n

/-- The id-extraction step of launch_gpu.main_async: `some id` when the
checked id is kept, `none` when the code raises
(empty string or the sentinel string null). -/
def createIdStep (f : CreateField) : Option String :=
  let id := pyStrOfField f
  if id = "" ∨ id = "null" then none else some id

/-! ## launch_gpu: interactive confirmation loop

    The only interactive choice in the code: `input(...)` lowered, looping
    while the answer is neither y nor n; y launches the first (cheapest)
    offer, n exits 0.  There is no cursor and no skip input: the offer
    presented is always `offer_details[0]`. -/

/-- Result of the confirmation loop: `accepted i` launches offer i,
`cancelled` exits 0, `pending` means the supplied inputs ran out while the
loop was still re-prompting. -/
inductive PickOutcome where
  | accepted (i : Nat)
  | cancelled
  | pending
deriving Repr, DecidableEq

/-- The confirmation loop of launch_gpu.main_async, fed a finite list of
operator inputs.  `numOffers` is the length of the offer list the claim
speaks about; the code never reads it, which the theorems make precise. -/
def pickerRun (numOffers : Nat) (inputs : List String) : PickOutcome :=
  match inputs with
  | [] => .pending
  | i :: rest =>
    let c := pyLower i
    if c = "y" then .accepted 0
    else if c = "n" then .cancelled
    else pickerRun numOffers rest

/-- The first input that lowers to y or n, lowered. -/
def firstDecision (inputs : List String) : Option String :=
  (inputs.map pyLower).find? (fun c => c == "y" || c == "n")

/-- What the confirmation loop computes, phrased through the first
decisive input: y accepts offer 0, n cancels, and a run with no decisive
input is still pending. -/
def pickerSpec (inputs : List String) : PickOutcome :=
  match firstDecision inputs with
  | some c => if c = "y" then .accepted 0 else .cancelled
  | none => .pending

/-- C1 counterexample: with 2 offers, the input skip followed by an
accept does not yield the offer at index 1 — the interactive loop has no
skip transition at all, so the accept still returns the offer at index 0
(skip merely re-prompts as an invalid input). -/
theorem pickerRun_skip_does_not_advance :
    pickerRun 2 ["skip", "y"] = .accepted 0 ∧
    pickerRun 2 ["skip", "y"] ≠ .accepted 1 := by decide

/-- C1 amended: for every offer-list length and every input sequence the
confirmation loop terminates without throwing and is decided by the first
input that lowers to y or n: y accepts the offer at index 0 (the single
offer ever presented), n cancels (the process then exits 0), and every
other input — including skip — only re-prompts; no index other than 0 is
ever visited or accepted. -/
theorem pickerRun_eq_pickerSpec :
    ∀ (numOffers : Nat) (inputs : List String),
    pickerRun numOffers inputs = pickerSpec inputs := by
  intro numOffers inputs
  induction inputs with
  | nil => rfl
  | cons i rest ih =>
    by_cases hy : pyLower i = "y"
    · simp [pickerRun, pickerSpec, firstDecision, hy]
    · by_cases hn : pyLower i = "n"
      · simp [pickerRun, pickerSpec, firstDecision, hy, hn]
      · simp only [pickerRun, if_neg hy, if_neg hn, ih,
          pickerSpec, firstDecision, List.map_cons, List.find?_cons]
        have hb : (pyLower i == "y" || pyLower i == "n") = false := by
          simp [hy, hn]
        rw [hb]

/-! ## launch_gpu: connection-URI polling loop

    `for attempt in range(1, MAX_ATTEMPTS + 1)` around a checked
    `vastai ssh-url <id> --raw` call: every exception is swallowed, an
    empty (stripped) output falls through, a non-empty output breaks with
    the stripped URI, and `await asyncio.sleep(SLEEP_SECONDS)` runs only
    when `attempt < MAX_ATTEMPTS`.  The loop is driven by an oracle
    giving each attempt's subprocess behaviour. -/

def MAX_ATTEMPTS : Nat := 6

def SLEEP_SECONDS : Nat := 15

/-- Behaviour of one `vastai ssh-url` subprocess call: the checked call
raises (non-zero exit, or any other exception), or returns this stdout. -/
inductive PollAttempt where
  | raise
  | out (stdout : String)
deriving Repr, DecidableEq

/-- What one loop iteration extracts: the stripped stdout when the call
returned non-empty output, `none` when it raised or the stripped output
was empty (both fall through to the retry logic identically). -/
def attemptVal : PollAttempt → Option String
  | .raise => none
  | .out s => if pyStrip s = "" then none else some (pyStrip s)

/-- The polling loop from attempt number `attempt` with `fuel` iterations
remaining (`attempt + fuel = MAX_ATTEMPTS + 1` at every call).  Returns
(ssh_uri, number of attempts issued, number of sleeps performed). -/
def pollAux (f : Nat → PollAttempt) : Nat → Nat → Option String × Nat × Nat
  | _, 0 => (none, 0, 0)
  | attempt, fuel + 1 =>
    match attemptVal (f attempt) with
    | some uri => (some uri, 1, 0)
    | none =>
      if attempt < MAX_ATTEMPTS then
        ((pollAux f (attempt + 1) fuel).1,
         (pollAux f (attempt + 1) fuel).2.1 + 1,
         (pollAux f (attempt + 1) fuel).2.2 + 1)
      else (none, 1, 0)

/-- The whole connection-URI poll of launch_gpu.main_async. -/
def pollSshFull (f : Nat → PollAttempt) : Option String × Nat × Nat :=
  pollAux f 1 MAX_ATTEMPTS

/-- Just the URI the loop leaves in ssh_uri (`none` means the code raises
its timeout exception right after the loop). -/
def pollSsh (f : Nat → PollAttempt) : Option String :=
  (pollSshFull f).1

theorem pollAux_spec (f : Nat → PollAttempt) :
    ∀ fuel attempt, 1 ≤ fuel → attempt + fuel = MAX_ATTEMPTS + 1 →
    (pollAux f attempt fuel).2.1 ≤ fuel ∧
    (pollAux f attempt fuel).2.1 = (pollAux f attempt fuel).2.2 + 1 ∧
    ((pollAux f attempt fuel).1 = none ↔
      ∀ k, attempt ≤ k → k ≤ MAX_ATTEMPTS → attemptVal (f k) = none) ∧
    ((pollAux f attempt fuel).1 = none → (pollAux f attempt fuel).2.1 = fuel) := by
  intro fuel
  induction fuel with
  | zero => intro attempt h1 _; omega
  | succ n ih =>
    intro attempt _ h2
    rcases hv : attemptVal (f attempt) with _ | uri
    · by_cases h3 : attempt < MAX_ATTEMPTS
      · have hn : 1 ≤ n := by
          simp only [MAX_ATTEMPTS] at h2 h3; omega
        have IH := ih (attempt + 1) hn (by omega)
        obtain ⟨ih1, ih2, ih3, ih4⟩ := IH
        have He : pollAux f attempt (n + 1) =
            ((pollAux f (attempt + 1) n).1,
             (pollAux f (attempt + 1) n).2.1 + 1,
             (pollAux f (attempt + 1) n).2.2 + 1) := by
          simp only [pollAux, hv, if_pos h3]
        rw [He]
        dsimp only
        refine ⟨by omega, by omega, ?_, fun hno => by rw [ih4 hno]⟩
        constructor
        · intro hnone k hk1 hk2
          rcases Nat.eq_or_lt_of_le hk1 with heq | hlt
          · rw [← heq]; exact hv
          · exact (ih3.mp hnone) k hlt hk2
        · intro hall
          exact ih3.mpr (fun k hk1 hk2 => hall k (by omega) hk2)
      · have hatt : attempt = MAX_ATTEMPTS := by
          simp only [MAX_ATTEMPTS] at h2 h3 ⊢; omega
        have hn0 : n = 0 := by
          simp only [MAX_ATTEMPTS] at h2 h3; omega
        have He : pollAux f attempt (n + 1) = (none, 1, 0) := by
          simp only [pollAux, hv, if_neg h3]
        rw [He, hn0]
        dsimp only
        refine ⟨by omega, rfl, ?_, fun _ => rfl⟩
        constructor
        · intro _ k hk1 hk2
          have hk : k = attempt := by omega
          rw [hk]; exact hv
        · intro _; rfl
    · have He : pollAux f attempt (n + 1) = (some uri, 1, 0) := by
        simp only [pollAux, hv]
      have hle : attempt ≤ MAX_ATTEMPTS := by
        simp only [MAX_ATTEMPTS] at h2 ⊢; omega
      rw [He]
      dsimp only
      refine ⟨by omega, rfl, ?_, by simp⟩
      constructor
      · intro habs; exact absurd habs (by simp)
      · intro hall
        have hva := hall attempt (Nat.le_refl _) hle
        rw [hva] at hv; exact absurd hv (by simp)

/-- C4: the connection-URI poll issues at most MAX_ATTEMPTS = 6 attempts;
a raising attempt and an empty-output attempt are treated identically as
not ready; the number of sleeps (each of SLEEP_SECONDS = 15 seconds) is
one less than the number of attempts issued, so a delay separates
consecutive attempts and none follows the last; the loop ends with no URI
(and the code then raises its terminal timeout exception) exactly when
every one of the 6 attempts raised or returned empty, in which case all 6
attempts were issued. -/
theorem pollSsh_budget_spec : ∀ f : Nat → PollAttempt,
    MAX_ATTEMPTS = 6 ∧ SLEEP_SECONDS = 15 ∧
    attemptVal PollAttempt.raise = none ∧ attemptVal (PollAttempt.out "") = none ∧
    (pollSshFull f).2.1 ≤ MAX_ATTEMPTS ∧
    (pollSshFull f).2.1 = (pollSshFull f).2.2 + 1 ∧
    ((pollSshFull f).1 = none ↔
      ∀ k, 1 ≤ k → k ≤ MAX_ATTEMPTS → attemptVal (f k) = none) ∧
    ((pollSshFull f).1 = none → (pollSshFull f).2.1 = MAX_ATTEMPTS) := by
  intro f
  have h := pollAux_spec f MAX_ATTEMPTS 1 (by simp [MAX_ATTEMPTS]) (by simp [MAX_ATTEMPTS])
  exact ⟨rfl, rfl, rfl, by decide, h.1, h.2.1, h.2.2.1, h.2.2.2⟩

/-! ## launch_gpu: SSH URI parsing

    The code runs Python `re.search` with the pattern
    `ssh://([^@]+)@([^:]+):([0-9]+)` on the polled URI and raises when no
    match is found.  For this pattern the regex engine is deterministic:
    at each candidate start position the literal must match, the user
    group runs to the first `@`, the host group to the next `:`, and the
    port group is a maximal nonempty digit run; `re.search` takes the
    leftmost start position at which this succeeds.  The functions below
    implement exactly that. -/

/-- Split a list at the first occurrence of the character: the part
before it and the part after it, or `none` when the character is absent
(model of one `[^c]+` group followed by the literal `c`, which admits no
backtracking). -/
def splitAtFirst (c : Char) : List Char → Option (List Char × List Char)
  | [] => none
  | x :: xs =>
    if x = c then some ([], xs)
    else
      match splitAtFirst c xs with
      | none => none
      | some (pre, post) => some (x :: pre, post)

/-- Maximal digit run at the head of the list and the remainder
(model of a greedy `[0-9]+`, which never needs to backtrack here because
nothing follows it in the pattern). -/
def takeDigits : List Char → List Char × List Char
  | [] => ([], [])
  | x :: xs =>
    if x.isDigit then (x :: (takeDigits xs).1, (takeDigits xs).2)
    else ([], x :: xs)

/-- Match `([^@]+)@([^:]+):([0-9]+)` at the very start of the list,
returning the three groups. -/
def matchCore (cs : List Char) : Option (List Char × List Char × List Char) :=
  match splitAtFirst '@' cs with
  | none => none
  | some (user, rest1) =>
    if user = [] then none
    else
      match splitAtFirst ':' rest1 with
      | none => none
      | some (host, rest2) =>
        if host = [] then none
        else
          if (takeDigits rest2).1 = [] then none
          else some (user, host, (takeDigits rest2).1)

/-- Strip the literal six characters of the scheme prefix the pattern
starts with, or `none` when the list does not start with them. -/
def sshLitDrop : List Char → Option (List Char)
  | 's' :: 's' :: 'h' :: ':' :: '/' :: '/' :: rest => some rest
  | _ => none

/-- Python `re.search` for this pattern: try every start position left to
right; at a position where the literal matches, attempt the groups, and
on their failure resume at the next position. -/
def searchSsh : List Char → Option (List Char × List Char × List Char)
  | [] => none
  | c :: tail =>
    match sshLitDrop (c :: tail) with
    | some rest =>
      match matchCore rest with
      | some r => some r
      | none => searchSsh tail
    | none => searchSsh tail

/-- The URI-parsing step of launch_gpu.main_async: the three regex groups
(user, host, port) when `re.search` matches, `none` when the code raises
its Could-not-parse exception (a terminal error caught by the cleanup
handler). -/
def parseSshUri (s : String) : Option (String × String × String) :=
  match searchSsh s.data with
  | some (u, h, p) => some (String.mk u, String.mk h, String.mk p)
  | none => none

theorem splitAtFirst_sound (c : Char) :
    ∀ l pre post, splitAtFirst c l = some (pre, post) →
      l = pre ++ c :: post ∧ c ∉ pre := by
  intro l
  induction l with
  | nil => intro pre post hs; exact absurd hs (by simp [splitAtFirst])
  | cons x xs ih =>
    intro pre post hs
    by_cases hx : x = c
    · simp only [splitAtFirst, if_pos hx] at hs
      obtain ⟨hpre, hpost⟩ := Prod.mk.injEq .. ▸ Option.some.injEq .. ▸ hs
      subst hpre; subst hpost
      simp [hx]
    · simp only [splitAtFirst, if_neg hx] at hs
      cases hrec : splitAtFirst c xs with
      | none => rw [hrec] at hs; exact absurd hs (by simp)
      | some pq =>
        obtain ⟨p, q⟩ := pq
        rw [hrec] at hs
        simp only [Option.some.injEq, Prod.mk.injEq] at hs
        obtain ⟨hpre, hpost⟩ := hs
        obtain ⟨hxs, hnotin⟩ := ih p q hrec
        subst hpre; subst hpost
        constructor
        · simp [hxs]
        · intro hmem
          rcases List.mem_cons.mp hmem with heq | hin
          · exact hx heq.symm
          · exact hnotin hin

theorem takeDigits_sound :
    ∀ l : List Char,
      l = (takeDigits l).1 ++ (takeDigits l).2 ∧
      ∀ ch ∈ (takeDigits l).1, ch.isDigit := by
  intro l
  induction l with
  | nil => exact ⟨rfl, by simp [takeDigits]⟩
  | cons x xs ih =>
    by_cases hx : x.isDigit
    · simp only [takeDigits, if_pos hx]
      refine ⟨by rw [List.cons_append, ← ih.1], ?_⟩
      intro ch hch
      rcases List.mem_cons.mp hch with heq | hin
      · rw [heq]; exact hx
      · exact ih.2 ch hin
    · simp only [takeDigits, if_neg hx]
      exact ⟨rfl, by simp⟩

theorem matchCore_sound :
    ∀ cs u h p, matchCore cs = some (u, h, p) →
      ∃ tail, cs = u ++ '@' :: (h ++ ':' :: (p ++ tail)) ∧
        u ≠ [] ∧ '@' ∉ u ∧ h ≠ [] ∧ ':' ∉ h ∧
        p ≠ [] ∧ ∀ ch ∈ p, ch.isDigit := by
  intro cs u h p hm
  unfold matchCore at hm
  cases h1 : splitAtFirst '@' cs with
  | none => rw [h1] at hm; exact absurd hm (by simp)
  | some ur =>
    obtain ⟨user, rest1⟩ := ur
    rw [h1] at hm
    by_cases hu : user = []
    · simp [hu] at hm
    · simp only [if_neg hu] at hm
      cases h2 : splitAtFirst ':' rest1 with
      | none => rw [h2] at hm; exact absurd hm (by simp)
      | some hr =>
        obtain ⟨host, rest2⟩ := hr
        rw [h2] at hm
        by_cases hh : host = []
        · simp [hh] at hm
        · simp only [if_neg hh] at hm
          by_cases hd : (takeDigits rest2).1 = []
          · simp [hd] at hm
          · simp only [if_neg hd, Option.some.injEq, Prod.mk.injEq] at hm
            obtain ⟨hu1, hh1, hp1⟩ := hm
            obtain ⟨hcs, hnu⟩ := splitAtFirst_sound '@' cs user rest1 h1
            obtain ⟨hr1, hnh⟩ := splitAtFirst_sound ':' rest1 host rest2 h2
            obtain ⟨hr2, hdig⟩ := takeDigits_sound rest2
            rw [← hu1, ← hh1, ← hp1]
            refine ⟨(takeDigits rest2).2, ?_, hu, hnu, hh, hnh, hd, hdig⟩
            rw [hcs, hr1, ← hr2]

theorem sshLitDrop_sound :
    ∀ l r, sshLitDrop l = some r →
      l = 's' :: 's' :: 'h' :: ':' :: '/' :: '/' :: r := by
  intro l r hd
  unfold sshLitDrop at hd
  split at hd
  · rename_i rest
    obtain hr := Option.some.injEq .. ▸ hd
    simp at hd
    rw [hd]
  · exact absurd hd (by simp)

theorem searchSsh_sound :
    ∀ l u h p, searchSsh l = some (u, h, p) →
      ∃ pre tail,
        l = pre ++ ('s' :: 's' :: 'h' :: ':' :: '/' :: '/' ::
          (u ++ '@' :: (h ++ ':' :: (p ++ tail)))) ∧
        u ≠ [] ∧ '@' ∉ u ∧ h ≠ [] ∧ ':' ∉ h ∧
        p ≠ [] ∧ ∀ ch ∈ p, ch.isDigit := by
  intro l
  induction l with
  | nil => intro u h p hs; exact absurd hs (by simp [searchSsh])
  | cons c tail ih =>
    intro u h p hs
    unfold searchSsh at hs
    cases hlit : sshLitDrop (c :: tail) with
    | some rest =>
      rw [hlit] at hs
      dsimp only at hs
      cases hmc : matchCore rest with
      | some r =>
        obtain ⟨u0, h0, p0⟩ := r
        rw [hmc] at hs
        simp only [Option.some.injEq, Prod.mk.injEq] at hs
        obtain ⟨hu, hh, hp⟩ := hs
        subst hu; subst hh; subst hp
        obtain ⟨tl, heq, hprops⟩ := matchCore_sound rest u0 h0 p0 hmc
        refine ⟨[], tl, ?_, hprops⟩
        rw [List.nil_append, sshLitDrop_sound _ _ hlit, heq]
      | none =>
        rw [hmc] at hs
        dsimp only at hs
        obtain ⟨pre, tl, heq, hprops⟩ := ih u h p hs
        exact ⟨c :: pre, tl, by rw [List.cons_append, ← heq], hprops⟩
    | none =>
      rw [hlit] at hs
      dsimp only at hs
      obtain ⟨pre, tl, heq, hprops⟩ := ih u h p hs
      exact ⟨c :: pre, tl, by rw [List.cons_append, ← heq], hprops⟩

/-- The shape the claim ascribes to the parser: the WHOLE string is
scheme://user@host:port with user nonempty without @, host nonempty
without :, port a nonempty run of digits ending the string. -/
def SpecShape (s : String) : Prop :=
  ∃ scheme user host port : List Char,
    s.data = scheme ++ ':' :: '/' :: '/' ::
      (user ++ '@' :: (host ++ ':' :: port)) ∧
    user ≠ [] ∧ '@' ∉ user ∧ host ≠ [] ∧ ':' ∉ host ∧
    port ≠ [] ∧ ∀ c ∈ port, c.isDigit

/-- C5 counterexample: the string ssh://a@b:1x does not match the shape
scheme://user@host:port (its last character x is not a digit, so no
decomposition puts a digit-only port at the end), yet the parser does not
produce a terminal error on it: because the code uses an unanchored
re.search, the embedded prefix matches and the triple (a, b, 1) is
returned. -/
theorem parseSshUri_accepts_nonshape_input :
    ¬ SpecShape "ssh://a@b:1x" ∧
    parseSshUri "ssh://a@b:1x" = some ("a", "b", "1") := by
  constructor
  · rintro ⟨scheme, user, host, port, heq, -, -, -, -, hpn, hpd⟩
    rcases port.eq_nil_or_concat with hnil | ⟨q, b, hqb⟩
    · exact hpn hnil
    · rw [List.concat_eq_append] at hqb
      have hb : b.isDigit := hpd b (by rw [hqb]; simp)
      have hassoc : scheme ++ ':' :: '/' :: '/' ::
          (user ++ '@' :: (host ++ ':' :: (q ++ [b]))) =
          (scheme ++ ':' :: '/' :: '/' ::
            (user ++ '@' :: (host ++ ':' :: q))) ++ [b] := by
        simp
      rw [hqb, hassoc] at heq
      have hlast : ("ssh://a@b:1x".data).getLast? = some b := by
        rw [heq, List.getLast?_concat]
      have hx : ("ssh://a@b:1x".data).getLast? = some 'x' := by decide
      rw [hx] at hlast
      have hbx : b = 'x' := by
        exact (Option.some.injEq .. ▸ hlast).symm
      rw [hbx] at hb
      exact absurd hb (by decide)
  · decide

/-- C5 amended: on ssh://root@203.0.113.5:44123 the parser yields exactly
(root, 203.0.113.5, 44123), and on ssh://bad-uri it fails, making the
code raise its terminal Could-not-parse error; in general the parser
succeeds only on strings CONTAINING a substring of the form
ssh://user@host:digits (user nonempty without @, host nonempty without :,
port a nonempty digit run) — so any string with no such substring is a
terminal error — the whole string need not have that shape, since the
search is unanchored. -/
theorem parseSshUri_spec :
    parseSshUri "ssh://root@203.0.113.5:44123" =
      some ("root", "203.0.113.5", "44123") ∧
    parseSshUri "ssh://bad-uri" = none ∧
    (∀ s u h p, parseSshUri s = some (u, h, p) →
      ∃ pre tail,
        s.data = pre ++ ('s' :: 's' :: 'h' :: ':' :: '/' :: '/' ::
          (u.data ++ '@' :: (h.data ++ ':' :: (p.data ++ tail)))) ∧
        u.data ≠ [] ∧ '@' ∉ u.data ∧ h.data ≠ [] ∧ ':' ∉ h.data ∧
        p.data ≠ [] ∧ ∀ c ∈ p.data, c.isDigit) := by
  refine ⟨by decide, by decide, ?_⟩
  intro s u h p hp
  unfold parseSshUri at hp
  cases hsearch : searchSsh s.data with
  | none => rw [hsearch] at hp; exact absurd hp (by simp)
  | some r =>
    obtain ⟨u0, h0, p0⟩ := r
    rw [hsearch] at hp
    simp only [Option.some.injEq, Prod.mk.injEq] at hp
    obtain ⟨hu, hh, hpp⟩ := hp
    have hdecomp := searchSsh_sound s.data u0 h0 p0 hsearch
    rw [← hu, ← hh, ← hpp]
    exact hdecomp

/-! ## launch_gpu: the provisioning workflow after the operator confirms

    The body of the big try block of main_async from the create request
    on, together with its except handler
    (print fatal message; `if instance_id: cleanup_instance(instance_id)`;
    `sys.exit(1)`) and the final `sys.exit(0)`.  External behaviour is an
    oracle: the create response's new_contract field, the per-attempt
    behaviour of the ssh-url poll, the SSH-key file and attach subprocess,
    and the result of get_instance_info_async (`none` models its
    TimeoutError, which the same handler catches). -/

/-- The SSH-key-attachment step's environment: whether the public-key
file exists at the configured path, its contents, and the exit code of
the non-checked `vastai attach ssh` subprocess. -/
structure KeyEnv where
  fileExists : Bool
  fileContent : String
  attachExit : Int

/-- What the key step prints: success, or one of its two warnings.  The
step raises nothing and returns nothing else. -/
inductive KeyReport where
  | attached (key : String)
  | attachFailedWarning
  | fileMissingWarning
deriving Repr, DecidableEq

/-- Section 7 of main_async: read and strip the key file if it exists and
run the attach subprocess, downgrading a non-zero exit to a warning;
warn and skip when the file is missing. -/
def keyStep (k : KeyEnv) : KeyReport :=
  if k.fileExists then
    if k.attachExit = 0 then .attached (pyStrip k.fileContent)
    else .attachFailedWarning
  else .fileMissingWarning

/-- Oracle for one run of the workflow. -/
structure LaunchEnv where
  newContract : CreateField
  sshPoll : Nat → PollAttempt
  key : KeyEnv
  netInfo : Option (String × String)

/-- Observable outcome of one run: the process exit status, the list of
ids cleanup_instance was invoked with (in order), and what the key step
printed (`none` when the flow failed before reaching it). -/
structure Outcome where
  exit : Nat
  cleanups : List String
  keyReport : Option KeyReport
deriving Repr, DecidableEq

/-- launch_gpu.main_async from the create request to process exit.  Each
failure (the raise on a missing id, the raise after an exhausted URI
poll, the raise on an unparsable URI, the TimeoutError of
get_instance_info_async) lands in the single except handler, which
invokes cleanup_instance on the current truthy instance_id and exits 1;
reaching the end exits 0. -/
def main_async_flow (env : LaunchEnv) : Outcome :=
  let instance_id := pyStrOfField env.newContract
  match createIdStep env.newContract with
  | none =>
    { exit := 1
      cleanups := if instance_id = "" then [] else [instance_id]
      keyReport := none }
  | some id =>
    match pollSsh env.sshPoll with
    | none => { exit := 1, cleanups := [id], keyReport := none }
    | some uri =>
      let kr := keyStep env.key
      match parseSshUri uri with
      | none => { exit := 1, cleanups := [id], keyReport := some kr }
      | some _ =>
        match env.netInfo with
        | none => { exit := 1, cleanups := [id], keyReport := some kr }
        | some _ => { exit := 0, cleanups := [], keyReport := some kr }

/-- C2: whenever the create step yields an instance id that passes the
validity check, every terminal failure of the remaining workflow invokes
cleanup exactly once with exactly that id and exits with status 1. -/
theorem main_async_flow_cleanup_once (env : LaunchEnv) (id : String)
    (hid : createIdStep env.newContract = some id)
    (hfail : (main_async_flow env).exit ≠ 0) :
    (main_async_flow env).exit = 1 ∧
    (main_async_flow env).cleanups = [id] := by
  cases hpoll : pollSsh env.sshPoll with
  | none =>
    have He : main_async_flow env = { exit := 1, cleanups := [id], keyReport := none } := by
      simp only [main_async_flow, hid, hpoll]
    rw [He]; exact ⟨rfl, rfl⟩
  | some uri =>
    cases hparse : parseSshUri uri with
    | none =>
      have He : main_async_flow env =
          { exit := 1, cleanups := [id], keyReport := some (keyStep env.key) } := by
        simp only [main_async_flow, hid, hpoll, hparse]
      rw [He]; exact ⟨rfl, rfl⟩
    | some t =>
      cases hnet : env.netInfo with
      | none =>
        have He : main_async_flow env =
            { exit := 1, cleanups := [id], keyReport := some (keyStep env.key) } := by
          simp only [main_async_flow, hid, hpoll, hparse, hnet]
        rw [He]; exact ⟨rfl, rfl⟩
      | some ip =>
        exfalso
        apply hfail
        have He : main_async_flow env =
            { exit := 0, cleanups := [], keyReport := some (keyStep env.key) } := by
          simp only [main_async_flow, hid, hpoll, hparse, hnet]
        rw [He]

/-- C2 witness: the spec's end-to-end failure scenario — create returns
new_contract 789, all 6 URI-poll attempts return empty output — ends
with cleanup invoked exactly once with id 789 and exit status 1. -/
theorem main_async_flow_cleanup_once_witness :
    (main_async_flow
      { newContract := .num 789
        sshPoll := fun _ => .out ""
        key := { fileExists := true, fileContent := "k", attachExit := 0 }
        netInfo := some ("1.2.3.4", "22") }).exit = 1 ∧
    (main_async_flow
      { newContract := .num 789
        sshPoll := fun _ => .out ""
        key := { fileExists := true, fileContent := "k", attachExit := 0 }
        netInfo := some ("1.2.3.4", "22") }).cleanups = ["789"] :=
  main_async_flow_cleanup_once
    { newContract := .num 789
      sshPoll := fun _ => .out ""
      key := { fileExists := true, fileContent := "k", attachExit := 0 }
      netInfo := some ("1.2.3.4", "22") }
    "789" (by decide) (by decide)

/-- C3: the create-response id check rejects an empty id and the literal
sentinel string null, but an ABSENT new_contract field (or an explicit
JSON null) slips through: Python str(None) is the truthy string None,
which passes the check, so the workflow proceeds to polling with None as
the instance id — here all the way to a successful exit — instead of
raising as the claim requires. -/
theorem createIdStep_missing_field_passes :
    createIdStep .missing = some "None" ∧
    createIdStep (.str "") = none ∧
    createIdStep (.str "null") = none ∧
    (main_async_flow
      { newContract := .missing
        sshPoll := fun _ => .out "ssh://root@1.2.3.4:5555"
        key := { fileExists := false, fileContent := "", attachExit := 0 }
        netInfo := some ("1.2.3.4", "22") }).exit = 0 := by
  refine ⟨by decide, by decide, by decide, by decide⟩

/-- C6: the workflow's exit status, its cleanup invocations, and whether
the key step was even reached are all unchanged under ANY change of the
SSH-key-attachment environment (file missing, attach subprocess failing,
or both): key-attachment failure is a warning only — it never aborts
provisioning and never triggers compensating cleanup. -/
theorem main_async_flow_key_step_immaterial :
    ∀ (env : LaunchEnv) (k1 k2 : KeyEnv),
    (main_async_flow { env with key := k1 }).exit =
      (main_async_flow { env with key := k2 }).exit ∧
    (main_async_flow { env with key := k1 }).cleanups =
      (main_async_flow { env with key := k2 }).cleanups ∧
    (main_async_flow { env with key := k1 }).keyReport.isNone =
      (main_async_flow { env with key := k2 }).keyReport.isNone := by
  intro env k1 k2
  simp only [main_async_flow]
  cases createIdStep env.newContract with
  | none => dsimp only; exact ⟨rfl, rfl, rfl⟩
  | some id =>
    cases pollSsh env.sshPoll with
    | none => dsimp only; exact ⟨rfl, rfl, rfl⟩
    | some uri =>
      dsimp only
      cases parseSshUri uri with
      | none => exact ⟨rfl, rfl, rfl⟩
      | some t =>
        cases env.netInfo with
        | none => exact ⟨rfl, rfl, rfl⟩
        | some ip => exact ⟨rfl, rfl, rfl⟩

/-! ## connect_mosh: instance lookup and validation

    connect_mosh.main queries `show instance <id> --raw`, checks
    `if not out_json` (exit 1), reads public_ipaddr and ports, indexes
    `ports.get(f"{udp}/udp")[0].get("HostPort")` and
    `ports.get("22/tcp")[0].get("HostPort")`, then checks
    `if not public_ip or not ports or not ssh_ext_port` (exit 1).  The
    surrounding `except Exception` handler only PRINTS and does not exit,
    so any exception inside the try block (for example ports being
    absent, making `None.get` raise AttributeError) falls through to the
    code after the handler, where building the ssh command reads the
    never-assigned local ssh_ext_port and the script dies on an
    UnboundLocalError traceback. -/

/-- The fields of the show-instance JSON record that connect_mosh reads.
For each port lookup, the outer `Option` is `none` when indexing raises
(key absent, so `None[0]` raises TypeError, or an empty binding list,
raising IndexError); the inner `Option` is the entry's HostPort value,
`none` when that key is absent. -/
structure ShowResp where
  emptyRecord : Bool
  public_ipaddr : Option String
  udpEntryHostPort : Option (Option String)
  tcp22HostPort : Option (Option String)
deriving Repr, DecidableEq

/-- How a run of connect_mosh.main can end, up to the point where the
transient SSH session would be opened. -/
inductive ConnOutcome where
  /-- `if not out_json`: prints There-is-no-instance and exits 1. -/
  | exitNoInstance
  /-- the missing-components check: prints its message and exits 1. -/
  | exitMissingComponents
  /-- an exception inside the try block: the handler prints but does not
  exit, and the fall-through code crashes on an unbound local variable
  (uncontrolled traceback, not a clean failure exit). -/
  | crashUnboundLocal
  /-- validation passed: the script goes on to open the SSH session with
  these (public_ip, udp HostPort, ssh HostPort) values. -/
  | proceed (publicIp : String) (moshPort : Option String) (sshPort : String)
deriving Repr, DecidableEq

/-- connect_mosh.main from the show-instance response to either a
terminal outcome or the decision to open the SSH session.  Note the
mosh-port HostPort is NOT part of the missing-components check. -/
def connMain (r : ShowResp) : ConnOutcome :=
  if r.emptyRecord then .exitNoInstance
  else
    match r.udpEntryHostPort with
    | none => .crashUnboundLocal
    | some moshPort =>
      match r.tcp22HostPort with
      | none => .crashUnboundLocal
      | some sshPort =>
        if !pyTruthy r.public_ipaddr || !pyTruthy sshPort then
          .exitMissingComponents
        else
          .proceed (r.public_ipaddr.getD "") moshPort (sshPort.getD "")

/-- C9: an empty instance record and a missing public IP do terminate
cleanly with a message, but a response that LACKS the ports mapping (or
the requested UDP or 22/tcp entry) raises inside the try block, and
because the except handler is missing an exit, the connector falls
through and crashes on the unbound ssh_ext_port local instead of
terminating with a clean failure message. -/
theorem connMain_missing_ports_crashes :
    connMain { emptyRecord := true, public_ipaddr := none,
               udpEntryHostPort := none, tcp22HostPort := none } =
      .exitNoInstance ∧
    connMain { emptyRecord := false, public_ipaddr := none,
               udpEntryHostPort := some (some "60001"),
               tcp22HostPort := some (some "41234") } =
      .exitMissingComponents ∧
    connMain { emptyRecord := false, public_ipaddr := some "1.2.3.4",
               udpEntryHostPort := none, tcp22HostPort := none } =
      .crashUnboundLocal ∧
    connMain { emptyRecord := false, public_ipaddr := some "1.2.3.4",
               udpEntryHostPort := some (some "60001"),
               tcp22HostPort := none } =
      .crashUnboundLocal := by
  refine ⟨by decide, by decide, by decide, by decide⟩

/-! ## connect_mosh: session-key extraction

    `mosh_key = ssh_result.split(" ")[-1]`: Python splits on single SPACE
    characters only (keeping empty fields), and takes the last field;
    ssh_result is the stripped stdout of the ssh subprocess. -/

/-- Python `l.split(" ")` on the character list: split at every space,
keeping empty fields; the result is always nonempty. -/
def pySplitOnSpace : List Char → List (List Char)
  | [] => [[]]
  | c :: rest =>
    if c = ' ' then [] :: pySplitOnSpace rest
    else
      match pySplitOnSpace rest with
      | [] => [[c]]
      | t :: ts => (c :: t) :: ts

/-- The session-key extraction of connect_mosh.main:
`ssh_result.split(" ")[-1]` (the split list is never empty, so the
Python [-1] index is its last element). -/
def moshKeyOf (s : String) : String :=
  String.mk ((pySplitOnSpace s.data).getLastD [])

/-- Splitting on ALL whitespace (what the specification's phrase
whitespace-delimited token means), keeping empty fields, to be filtered. -/
def splitOnWhitespace : List Char → List (List Char)
  | [] => [[]]
  | c :: rest =>
    if c.isWhitespace then [] :: splitOnWhitespace rest
    else
      match splitOnWhitespace rest with
      | [] => [[c]]
      | t :: ts => (c :: t) :: ts

/-- Modelled from the spec's words: the last whitespace-delimited token
of the output — the last maximal nonempty run of non-whitespace
characters. -/
def lastWhitespaceTok (s : String) : String :=
  String.mk (((splitOnWhitespace s.data).filter
    (fun t => !t.isEmpty)).getLastD [])

theorem pySplitOnSpace_ne_nil : ∀ l : List Char, pySplitOnSpace l ≠ [] := by
  intro l
  induction l with
  | nil => simp [pySplitOnSpace]
  | cons c rest ih =>
    by_cases hc : c = ' '
    · simp [pySplitOnSpace, hc]
    · simp only [pySplitOnSpace, if_neg hc]
      cases hr : pySplitOnSpace rest with
      | nil => simp
      | cons t ts => simp

theorem pySplitOnSpace_no_space : ∀ l : List Char, ' ' ∉ l →
    pySplitOnSpace l = [l] := by
  intro l
  induction l with
  | nil => intro _; rfl
  | cons c rest ih =>
    intro hno
    have hc : ¬c = ' ' := fun hcc => hno (by rw [hcc]; exact List.mem_cons_self _ _)
    have hrest : ' ' ∉ rest := fun hin => hno (List.mem_cons_of_mem _ hin)
    simp only [pySplitOnSpace, if_neg hc, ih hrest]

theorem pySplitOnSpace_with_space : ∀ l : List Char, ' ' ∈ l →
    2 ≤ (pySplitOnSpace l).length := by
  intro l
  induction l with
  | nil => intro h; exact absurd h (by simp)
  | cons c rest ih =>
    intro hmem
    by_cases hc : c = ' '
    · simp only [pySplitOnSpace, if_pos hc, List.length_cons]
      have := List.length_pos.mpr (pySplitOnSpace_ne_nil rest)
      omega
    · have hrest : ' ' ∈ rest := by
        rcases List.mem_cons.mp hmem with heq | hin
        · exact absurd heq.symm hc
        · exact hin
      have h2 := ih hrest
      simp only [pySplitOnSpace, if_neg hc]
      cases hr : pySplitOnSpace rest with
      | nil => exact absurd hr (pySplitOnSpace_ne_nil rest)
      | cons t ts =>
        rw [hr] at h2
        simp only [List.length_cons] at h2 ⊢
        omega

theorem lastSpaceField_spec : ∀ l : List Char,
    ' ' ∉ (pySplitOnSpace l).getLastD [] ∧
    ∃ pre, l = pre ++ (pySplitOnSpace l).getLastD [] ∧
      (pre = [] ∨ ∃ q, pre = q ++ [' ']) := by
  intro l
  induction l with
  | nil => exact ⟨by simp [pySplitOnSpace], [], by simp [pySplitOnSpace], Or.inl rfl⟩
  | cons c rest ih =>
    obtain ⟨ihno, pre, ihpre, ihend⟩ := ih
    by_cases hc : c = ' '
    · have hkey : (pySplitOnSpace (c :: rest)).getLastD [] =
          (pySplitOnSpace rest).getLastD [] := by
        simp only [pySplitOnSpace, if_pos hc, List.getLastD_cons]
      refine ⟨by rw [hkey]; exact ihno, ' ' :: pre, ?_, ?_⟩
      · rw [hkey, hc, List.cons_append, ← ihpre]
      · rcases ihend with hnil | ⟨q, hq⟩
        · exact Or.inr ⟨[], by rw [hnil]; rfl⟩
        · exact Or.inr ⟨' ' :: q, by rw [hq]; rfl⟩
    · cases hr : pySplitOnSpace rest with
      | nil => exact absurd hr (pySplitOnSpace_ne_nil rest)
      | cons t ts =>
        have hsplit : pySplitOnSpace (c :: rest) = (c :: t) :: ts := by
          simp only [pySplitOnSpace, if_neg hc, hr]
        cases ts with
        | nil =>
          have hnosp : ' ' ∉ rest := by
            intro hin
            have h2 := pySplitOnSpace_with_space rest hin
            rw [hr] at h2
            simp at h2
          have hrt : rest = t := by
            have := pySplitOnSpace_no_space rest hnosp
            rw [hr] at this
            exact (List.cons.injEq .. ▸ this).1.symm
          have hkey : (pySplitOnSpace (c :: rest)).getLastD [] = c :: t := by
            rw [hsplit]; rfl
          refine ⟨?_, [], ?_, Or.inl rfl⟩
          · rw [hkey]
            intro hin
            rcases List.mem_cons.mp hin with heq | hin2
            · exact hc heq.symm
            · exact hnosp (hrt ▸ hin2)
          · rw [hkey, List.nil_append, hrt]
        | cons t2 ts2 =>
          have hkey : (pySplitOnSpace (c :: rest)).getLastD [] =
              (pySplitOnSpace rest).getLastD [] := by
            rw [hsplit, hr]
            simp only [List.getLastD_cons]
          have hpre_ne : pre ≠ [] := by
            intro hnil
            rw [hnil, List.nil_append] at ihpre
            have hnosp : ' ' ∉ rest := by rw [ihpre]; exact ihno
            have := pySplitOnSpace_no_space rest hnosp
            rw [hr] at this
            have hlen := congrArg List.length this
            simp at hlen
          rcases ihend with hnil | ⟨q, hq⟩
          · exact absurd hnil hpre_ne
          · refine ⟨by rw [hkey]; exact ihno, c :: pre, ?_, Or.inr ⟨c :: q, by rw [hq]; rfl⟩⟩
            rw [hkey, List.cons_append, ← ihpre]

/-- C10 counterexample: on the SSH output MOSH CONNECT 60001 followed by
a newline and the key, the extraction (which splits on single spaces
only) returns the digits, the newline and the key together — not the
last whitespace-delimited token, which is just the key. -/
theorem moshKeyOf_misses_newline_token :
    moshKeyOf "MOSH CONNECT 60001\nkey42" = "60001\nkey42" ∧
    lastWhitespaceTok "MOSH CONNECT 60001\nkey42" = "key42" ∧
    moshKeyOf "MOSH CONNECT 60001\nkey42" ≠
      lastWhitespaceTok "MOSH CONNECT 60001\nkey42" := by
  refine ⟨by decide, by decide, by decide⟩

/-- C10 amended: for every SSH output string the extraction returns the
last SPACE-delimited field — a suffix of the output containing no space
character, preceded in the output either by nothing or by a space; it
coincides with the last whitespace-delimited token only when the final
token is separated by a space, not by a newline or tab. -/
theorem moshKeyOf_last_space_field : ∀ s : String,
    ' ' ∉ (moshKeyOf s).data ∧
    ∃ pre, s.data = pre ++ (moshKeyOf s).data ∧
      (pre = [] ∨ ∃ q, pre = q ++ [' ']) := by
  intro s
  exact lastSpaceField_spec s.data

end VastAI
